import Mathlib

/-!
Verification of the three-stage deliberation core of the `llm-counsel` repository.

The Lean definitions below are a shallow embedding of the Python source:

* `src/backend/prompts/stage2.py` — `create_anonymous_labels` and
  `extract_ranking_from_text` (including a faithful hand-compilation of the two
  regular expressions used there, with Python `re` semantics: no `MULTILINE`,
  so `$` matches only at the end of the string or just before a trailing
  newline; `IGNORECASE` on the first pattern only).
* `src/backend/counsel.py` — `_calculate_aggregate_rankings`,
  `stage1_collect_analyses`, `stage2_collect_assessments`,
  `stage3_lead_counsel_strategy` and `run_deliberation` (batch mode).

Modelling conventions:

* Python strings are modelled as `String` where they are opaque payloads and as
  `List Char` where the code inspects characters (the rank extractor); ASCII
  semantics are assumed for case conversion and character classes.
* Python `float` averages are modelled as `ℚ`; all positions are small
  integers, so sums and quotients are exact and order-independent, exactly as
  in the source.
* Python dicts (insertion-ordered, unique keys) are modelled as association
  lists in insertion order.
* The external model gateway (`client.generate`) together with the prompt
  builders is abstracted as a function parameter: for a fixed question the
  stage-1 call is a function of the member's role and model, the stage-2 call
  a function of the model (all stage-2 prompts are identical), and the stage-3
  call a function of the lead model.  A raised exception is an `Except.error`.
* `asyncio.gather` is used in the source without `return_exceptions=True`, so
  the first raised exception propagates and aborts the stage; this is
  determinized here to sequential traversal in team order.
* Exceptions are values of `Exc`: the gateway client can raise
  (`Exc.gateway`), and a caller-supplied `on_event` / `on_analysis` /
  `on_assessment` callback can raise (`Exc.callback`).  The repository defines
  no other error classes on the deliberation path — in particular, no
  `AllParticipantsFailed` and no `CapacityExceeded` class exists anywhere in
  the source tree.
-/

/-! ## Character classes (Python `re`, ASCII fragment) -/

/-- Python `\d` (ASCII). -/
def isDigitCh (c : Char) : Bool := decide ('0' ≤ c) && decide (c ≤ '9')

/-- Python `\s` for ASCII text: space, tab, newline, carriage return,
vertical tab, form feed. -/
def isSpaceCh (c : Char) : Bool :=
  c == ' ' || c == '\t' || c == '\n' || c == '\r' || c == '\x0b' || c == '\x0c'

/-- ASCII letter — what `[A-Z]` matches under `re.IGNORECASE`. -/
def isLetterCh (c : Char) : Bool :=
  (decide ('A' ≤ c) && decide (c ≤ 'Z')) || (decide ('a' ≤ c) && decide (c ≤ 'z'))

/-- ASCII uppercase letter — what `[A-Z]` matches without `re.IGNORECASE`. -/
def isUpperCh (c : Char) : Bool := decide ('A' ≤ c) && decide (c ≤ 'Z')

/-- Python `\w` (ASCII): letters, digits, underscore. -/
def isWordCh (c : Char) : Bool := isLetterCh c || isDigitCh c || c == '_'

/-! ## Substring search (Python `in` and `str.split`) -/

/-- Does `s` start with `pat`? -/
def beginsWith : List Char → List Char → Bool
  | [], _ => true
  | _ :: _, [] => false
  | p :: ps, c :: cs => p == c && beginsWith ps cs

/-- The rest of `s` after the first occurrence of `pat`, if `pat` occurs. -/
def findSub (pat : List Char) : List Char → Option (List Char)
  | [] => if beginsWith pat [] then some [] else none
  | c :: cs =>
    if beginsWith pat (c :: cs) then some (List.drop pat.length (c :: cs))
    else findSub pat cs

/-- Everything before the first occurrence of `pat` (the whole list if `pat`
does not occur).  `beforeSub pat (findSub pat s)` is `s.split(pat)[1]` in
Python: the chunk between the first and second occurrence. -/
def beforeSub (pat : List Char) : List Char → List Char
  | [] => []
  | c :: cs => if beginsWith pat (c :: cs) then [] else c :: beforeSub pat cs

/-- Python `s[-n:]`. -/
def lastN (n : Nat) (s : List Char) : List Char := s.drop (s.length - n)

/-! ## The first extraction pattern

`(?:\d+[\.\)\:]?\s*)?(?:Analysis\s+)?([A-Z])(?:\s*[-–—]|\s*$|\s*\()` with
`re.IGNORECASE`, hand-compiled.  Greedy quantifiers over the disjoint
character classes (`\d+`, `\s*`) never need to backtrack into the following
pattern element, so maximal munch below is equivalent to the regex search;
the optional groups are tried in regex backtracking order (with the group
first, then without). -/

/-- Match `\d+[\.\)\:]?\s*` (the optional numeric list marker), returning the
rest; `none` when no digit starts here. -/
def numLead (s : List Char) : Option (List Char) :=
  match s with
  | [] => none
  | c :: cs =>
    if isDigitCh c then
      let r1 := (c :: cs).dropWhile isDigitCh
      let r2 :=
        match r1 with
        | d :: ds => if d == '.' || d == ')' || d == ':' then ds else d :: ds
        | [] => []
      some (r2.dropWhile isSpaceCh)
    else none

/-- Match `Analysis\s+` case-insensitively, returning the rest. -/
def analysisLead (s : List Char) : Option (List Char) :=
  if (s.take 8).map Char.toUpper = "ANALYSIS".toList then
    match s.drop 8 with
    | d :: ds => if isSpaceCh d then some ((d :: ds).dropWhile isSpaceCh) else none
    | [] => none
  else none

/-- Match the trailing group `(?:\s*[-–—]|\s*$|\s*\()` after the captured
letter.  Without `re.MULTILINE`, `\s*$` succeeds exactly when everything
remaining (in the searched slice) is whitespace. -/
def tailMatch (s : List Char) : Option (List Char) :=
  match s.dropWhile isSpaceCh with
  | [] => some []
  | c :: cs =>
    if c == '-' || c == '–' || c == '—' then some cs
    else if c == '(' then some cs
    else none

/-- Match the capture group `([A-Z])` (ignore-case). -/
def letterTail (s : List Char) : Option (Char × List Char) :=
  match s with
  | [] => none
  | c :: cs => if isLetterCh c then some (c, cs) else none

/-- Letter capture followed by the trailing group. -/
def coreMatch (s : List Char) : Option (Char × List Char) :=
  match letterTail s with
  | none => none
  | some (c, r) =>
    match tailMatch r with
    | none => none
    | some r2 => some (c, r2)

/-- The pattern after the optional numeric marker: optional `Analysis\s+`,
then letter and trailing group. -/
def afterNumMatch (s : List Char) : Option (Char × List Char) :=
  (match analysisLead s with
   | some r => coreMatch r
   | none => none) <|> coreMatch s

/-- Attempt the whole first pattern at this position. -/
def attemptMatch (s : List Char) : Option (Char × List Char) :=
  (match numLead s with
   | some r => afterNumMatch r
   | none => none) <|> afterNumMatch s

/-- `re.finditer` scan with the first pattern: leftmost, non-overlapping;
every match consumes at least the captured letter.  The fuel argument equals
the remaining length at every call, so it never runs out. -/
def scanPat1Fuel : Nat → List Char → List Char
  | 0, _ => []
  | _, [] => []
  | fuel + 1, c :: cs =>
    match attemptMatch (c :: cs) with
    | some (lab, rest) => Char.toUpper lab :: scanPat1Fuel fuel rest
    | none => scanPat1Fuel fuel cs

/-- All captures of the first pattern over the section, uppercased in match
order (the `match.group(1).upper()` of the source). -/
def scanPat1 (s : List Char) : List Char := scanPat1Fuel s.length s

/-- `re.finditer` with `\b([A-Z])\b` (no `IGNORECASE`): single uppercase
letters with a word boundary on both sides, scanned left to right;
`prev` is the character before the current position. -/
def scanPat2Go (prev : Option Char) : List Char → List Char
  | [] => []
  | c :: cs =>
    let okL : Bool := match prev with | none => true | some p => !(isWordCh p)
    let okR : Bool := match cs with | [] => true | d :: _ => !(isWordCh d)
    if isUpperCh c && okL && okR then Char.toUpper c :: scanPat2Go (some c) cs
    else scanPat2Go (some c) cs

/-- All captures of the simple second pattern over the section. -/
def scanPat2 (s : List Char) : List Char := scanPat2Go none s

/-! ## `extract_ranking_from_text` (src/backend/prompts/stage2.py) -/

/-- The ranking markers searched for in the uppercased text. -/
def finalMarker : List Char := "FINAL RANKING:".toList

/-- The fallback marker. -/
def rankingMarker : List Char := "RANKING:".toList

/-- One step of the source's accumulation loop:
`if label in valid_labels and label not in ranking: ranking.append(label)`. -/
def addLabel (valid_labels acc : List Char) (label : Char) : List Char :=
  if label ∈ valid_labels ∧ label ∉ acc then acc ++ [label] else acc

/-- The source's default-fill loop
`for label in valid_labels: if label not in ranking: ranking.append(label)`. -/
def fillMissing (valid_labels ranking : List Char) : List Char :=
  valid_labels.foldl (fun acc label => if label ∈ acc then acc else acc ++ [label]) ranking

/-- The `ranking_section` selection at the top of `extract_ranking_from_text`
(src/backend/prompts/stage2.py, lines 106–118): marker search happens on the
uppercased text (and, matching `str.split`, the section is the chunk between
the first and second marker occurrence); the no-marker fallback is the last
500 characters of the original, non-uppercased text. -/
def rankingSection (text : List Char) : List Char :=
  let up := text.map Char.toUpper
  match findSub finalMarker up with
  | some rest => beforeSub finalMarker rest
  | none =>
    match findSub rankingMarker up with
    | some rest => beforeSub rankingMarker rest
    | none => lastN 500 text

/-- `extract_ranking_from_text(text, valid_labels)` from
src/backend/prompts/stage2.py, lines 93–143. -/
def extract_ranking_from_text (text : List Char) (valid_labels : List Char) : List Char :=
  let ranking_section := rankingSection text
  let ranking := (scanPat1 ranking_section).foldl (addLabel valid_labels) []
  let ranking :=
    if ranking.length < valid_labels.length then
      (scanPat2 ranking_section).foldl (addLabel valid_labels) ranking
    else ranking
  let ranking := fillMissing valid_labels ranking
  ranking.take valid_labels.length

/-! ## `create_anonymous_labels` (src/backend/prompts/stage2.py) -/

/-- Input record: an analysis dict with `role`, `content`, and an optional
`model` key (the source reads it with `.get("model", "unknown")`). -/
structure AnalysisIn where
  role : String
  content : String
  model : Option String
  deriving DecidableEq

/-- Value stored under each label. -/
structure LabeledInfo where
  role : String
  content : String
  model : String
  deriving DecidableEq

/-- The label alphabet `"ABCDEFGHIJKLMNOPQRSTUVWXYZ"`. -/
def labelAlphabet : List Char := "ABCDEFGHIJKLMNOPQRSTUVWXYZ".toList

/-- `create_anonymous_labels(analyses)` from src/backend/prompts/stage2.py,
lines 68–90.  The source loop enumerates the input, breaks at index ≥ 26, and
inserts `labels[i] ↦ info` into an (insertion-ordered) dict; that is exactly
zipping the 26-letter alphabet with the input list. -/
def create_anonymous_labels (analyses : List AnalysisIn) : List (Char × LabeledInfo) :=
  (labelAlphabet.zip analyses).map fun p =>
    (p.1, ⟨p.2.role, p.2.content, p.2.model.getD "unknown"⟩)

/-! ## `_calculate_aggregate_rankings` (src/backend/counsel.py) -/

/-- A stage-2 assessment record: `{"model": ..., "evaluation": ...,
"ranking": ...}`. -/
structure AssessResult where
  model : String
  evaluation : String
  ranking : List Char
  deriving DecidableEq

/-- One aggregate ranking entry produced by `_calculate_aggregate_rankings`. -/
structure RankEntry where
  label : Char
  role : String
  avg_position : ℚ
  positions : List Nat
  deriving DecidableEq

/-- The 1-based positions at which `label` occurs in `ranking`
(`for position, label in enumerate(ranking, 1)`), starting the count at
`pos`. -/
def rankPositionsFrom (pos : Nat) (label : Char) : List Char → List Nat
  | [] => []
  | c :: cs =>
    if c = label then pos :: rankPositionsFrom (pos + 1) label cs
    else rankPositionsFrom (pos + 1) label cs

/-- The 1-based positions at which `label` occurs in `ranking`. -/
def rankPositions (ranking : List Char) (label : Char) : List Nat :=
  rankPositionsFrom 1 label ranking

/-- `position_scores[label]` after the collection loop: the positions
observed for `label` across all assessments, in assessment order.
(Occurrences of labels outside `label_to_role` are dropped by the source's
`if label in position_scores` guard; here they are simply never queried.) -/
def positionScores (assessments : List (String × AssessResult)) (label : Char) : List Nat :=
  match assessments with
  | [] => []
  | a :: rest => rankPositions a.2.ranking label ++ positionScores rest label

/-- The average position of `label` — `sum(positions) / len(positions)`.
Positions are small integers, so the source's float arithmetic is exact and
agrees with `ℚ`. -/
def avgPos (assessments : List (String × AssessResult)) (label : Char) : ℚ :=
  ((positionScores assessments label).sum : ℚ) / ((positionScores assessments label).length : ℚ)

/-- The entry built for a label with at least one observed position. -/
def aggregateEntry (assessments : List (String × AssessResult)) (label : Char) (role : String) :
    RankEntry :=
  ⟨label, role, avgPos assessments label, positionScores assessments label⟩

/-- Stable insertion of an entry into a list sorted by `avg_position`:
the entry is placed before the first element whose average is greater than
or equal to its own, so among equal averages an inserted (earlier) element
precedes the (later) elements already in the list. -/
def insortAvg (x : RankEntry) : List RankEntry → List RankEntry
  | [] => [x]
  | y :: ys =>
    if x.avg_position ≤ y.avg_position then x :: y :: ys
    else y :: insortAvg x ys

/-- Stable sort by `avg_position` — the model of Python's stable
`rankings.sort(key=lambda x: x["avg_position"])` (Timsort is stable; an
insertion sort that inserts each earlier element before later elements with
an equal key computes the same list). -/
def sortByAvg : List RankEntry → List RankEntry
  | [] => []
  | x :: xs => insortAvg x (sortByAvg xs)

/-- The body of the source's entry-building loop for one `(label, role)` pair
of `label_to_role`: skip the label when it has no observed positions,
otherwise build its `RankEntry`. -/
def entryFor (assessments : List (String × AssessResult)) (lr : Char × String) :
    Option RankEntry :=
  let positions := positionScores assessments lr.1
  if positions = [] then none
  else some ⟨lr.1, lr.2, (positions.sum : ℚ) / (positions.length : ℚ), positions⟩

/-- `_calculate_aggregate_rankings(assessments, label_to_role)` from
src/backend/counsel.py, lines 356–395.  `assessments` is the role-keyed
insertion-ordered dict of stage-2 results (only `["ranking"]` is read);
`label_to_role` is the label-keyed dict built in stage 2 (keys unique by
construction).  Labels with no observed positions are skipped; entries are
stably sorted by average position. -/
def _calculate_aggregate_rankings (assessments : List (String × AssessResult))
    (label_to_role : List (Char × String)) : List RankEntry :=
  sortByAvg (label_to_role.filterMap (entryFor assessments))

/-! ## The orchestrator (src/backend/counsel.py), batch mode -/

/-- Exceptions that can be raised on the deliberation path: the gateway
client (`client.generate`) and caller-provided callbacks.  The repository
defines no other error classes here — in particular no `AllParticipantsFailed`
and no `CapacityExceeded` exists anywhere in the source. -/
inductive Exc where
  | gateway (msg : String)
  | callback (msg : String)
  deriving DecidableEq

/-- One configured counsel member (`COUNSEL_TEAM` record). -/
structure Counsel where
  role : String
  model : String
  display_name : String
  deriving DecidableEq

/-- One stage-1 analysis record. -/
structure AnalysisResult where
  model : String
  content : String
  display_name : String
  deriving DecidableEq

/-- The dict returned by `stage2_collect_assessments`. -/
structure Stage2Results where
  assessments : List (String × AssessResult)
  aggregate_rankings : List RankEntry
  label_mapping : List (Char × String)
  deriving DecidableEq

/-- The dict returned by `stage3_lead_counsel_strategy`. -/
structure Stage3Result where
  model : String
  content : String
  deriving DecidableEq

/-- The complete batch deliberation result. -/
structure DelibResult where
  stage1 : List (String × AnalysisResult)
  stage2 : Stage2Results
  stage3 : Stage3Result
  deriving DecidableEq

/-- The progress events emitted by batch `run_deliberation`. -/
inductive Event where
  | stage1_start
  | stage1_analysis (role : String) (content : AnalysisResult)
  | stage1_complete (results : List (String × AnalysisResult))
  | stage2_start
  | stage2_assessment (role : String) (content : AssessResult)
  | stage2_complete (results : Stage2Results)
  | stage3_start
  | stage3_complete (result : Stage3Result)

/-- The `emit` helper of `run_deliberation`: calls `on_event` if provided.
The source does not catch callback exceptions, so a raising callback makes
`emit` raise. -/
def emitEvent (on_event : Option (Event → Except Exc Unit)) (e : Event) : Except Exc Unit :=
  match on_event with
  | none => Except.ok ()
  | some f => f e

/-- Invoke an optional per-item callback (`if on_analysis: on_analysis(role,
result)` / `if on_assessment: ...`).  The source does not catch callback
exceptions, so a raising callback propagates. -/
def invokeCb {α : Type} (cb : Option (String → α → Except Exc Unit)) (role : String)
    (result : α) : Except Exc Unit :=
  match cb with
  | none => Except.ok ()
  | some f => f role result

/-- `stage1_collect_analyses` from src/backend/counsel.py, lines 172–228.
One generation request per team member; `asyncio.gather` *without*
`return_exceptions=True` propagates the first exception, determinized here to
team order.  On success each member's `(role, result)` pair is collected into
the role-keyed result dict, and `on_analysis` (when provided) is invoked with
the completed result. -/
def stage1_collect_analyses (team : List Counsel) (gen1 : String → String → Except Exc String)
    (on_analysis : Option (String → AnalysisResult → Except Exc Unit)) :
    Except Exc (List (String × AnalysisResult)) :=
  match team with
  | [] => Except.ok []
  | c :: rest =>
    match gen1 c.role c.model with
    | Except.error e => Except.error e
    | Except.ok content =>
      let result : AnalysisResult := ⟨c.model, content, c.display_name⟩
      match invokeCb on_analysis c.role result with
      | Except.error e => Except.error e
      | Except.ok _ =>
        match stage1_collect_analyses rest gen1 on_analysis with
        | Except.error e => Except.error e
        | Except.ok tail => Except.ok ((c.role, result) :: tail)

/-- The stage-2 per-member fan-out (the `get_assessment` tasks gathered in
`stage2_collect_assessments`): each member's model produces an evaluation
text, the ranking is extracted from it, and `on_assessment` (when provided)
is invoked. -/
def stage2Loop (team : List Counsel) (gen2 : String → Except Exc String)
    (valid_labels : List Char) (on_assessment : Option (String → AssessResult → Except Exc Unit)) :
    Except Exc (List (String × AssessResult)) :=
  match team with
  | [] => Except.ok []
  | c :: rest =>
    match gen2 c.model with
    | Except.error e => Except.error e
    | Except.ok evaluation =>
      let ranking := extract_ranking_from_text evaluation.toList valid_labels
      let result : AssessResult := ⟨c.model, evaluation, ranking⟩
      match invokeCb on_assessment c.role result with
      | Except.error e => Except.error e
      | Except.ok _ =>
        match stage2Loop rest gen2 valid_labels on_assessment with
        | Except.error e => Except.error e
        | Except.ok tail => Except.ok ((c.role, result) :: tail)

/-- `stage2_collect_assessments` from src/backend/counsel.py, lines 271–354:
anonymize the stage-1 analyses, fan out one evaluation request per member,
extract each ranking, and compute the aggregate rankings. -/
def stage2_collect_assessments (team : List Counsel) (gen2 : String → Except Exc String)
    (stage1_analyses : List (String × AnalysisResult))
    (on_assessment : Option (String → AssessResult → Except Exc Unit)) :
    Except Exc Stage2Results :=
  let analyses_list : List AnalysisIn :=
    stage1_analyses.map fun rd => ⟨rd.1, rd.2.content, some rd.2.model⟩
  let labeled_analyses := create_anonymous_labels analyses_list
  let label_to_role : List (Char × String) := labeled_analyses.map fun li => (li.1, li.2.role)
  let valid_labels : List Char := labeled_analyses.map Prod.fst
  match stage2Loop team gen2 valid_labels on_assessment with
  | Except.error e => Except.error e
  | Except.ok assessments =>
    Except.ok ⟨assessments, _calculate_aggregate_rankings assessments label_to_role, label_to_role⟩

/-- `stage3_lead_counsel_strategy` from src/backend/counsel.py,
lines 397–443: one synthesis call to the lead model. -/
def stage3_lead_counsel_strategy (lead_counsel_model : String)
    (gen3 : String → Except Exc String) : Except Exc Stage3Result :=
  match gen3 lead_counsel_model with
  | Except.error e => Except.error e
  | Except.ok content => Except.ok ⟨lead_counsel_model, content⟩

/-- Batch `run_deliberation` from src/backend/counsel.py, lines 46–109:
emit progress events, run the three stages in sequence, and return the
combined result.  Exceptions — from the gateway or from the callback itself —
propagate to the caller unchanged. -/
def run_deliberation (team : List Counsel) (lead_counsel_model : String)
    (gen1 : String → String → Except Exc String) (gen2 : String → Except Exc String)
    (gen3 : String → Except Exc String) (on_event : Option (Event → Except Exc Unit)) :
    Except Exc DelibResult :=
  match emitEvent on_event Event.stage1_start with
  | Except.error e => Except.error e
  | Except.ok _ =>
  match stage1_collect_analyses team gen1
      (on_event.map fun f => fun role result => f (Event.stage1_analysis role result)) with
  | Except.error e => Except.error e
  | Except.ok stage1_results =>
  match emitEvent on_event (Event.stage1_complete stage1_results) with
  | Except.error e => Except.error e
  | Except.ok _ =>
  match emitEvent on_event Event.stage2_start with
  | Except.error e => Except.error e
  | Except.ok _ =>
  match stage2_collect_assessments team gen2 stage1_results
      (on_event.map fun f => fun role result => f (Event.stage2_assessment role result)) with
  | Except.error e => Except.error e
  | Except.ok stage2_results =>
  match emitEvent on_event (Event.stage2_complete stage2_results) with
  | Except.error e => Except.error e
  | Except.ok _ =>
  match emitEvent on_event Event.stage3_start with
  | Except.error e => Except.error e
  | Except.ok _ =>
  match stage3_lead_counsel_strategy lead_counsel_model gen3 with
  | Except.error e => Except.error e
  | Except.ok stage3_result =>
  match emitEvent on_event (Event.stage3_complete stage3_result) with
  | Except.error e => Except.error e
  | Except.ok _ => Except.ok ⟨stage1_results, stage2_results, stage3_result⟩

/-- A view of a `RankEntry` that drops the raw position list: label, role and
average position.  Two aggregate outputs agree on this view exactly when they
rank the same labels, to the same roles, with the same averages, in the same
order. -/
def entryView (e : RankEntry) : Char × String × ℚ :=
  (e.label, e.role, e.avg_position)

/-- Is an `Except` value a success? -/
def exceptIsOk {ε α : Type} : Except ε α → Bool
  | Except.ok _ => true
  | Except.error _ => false

deriving instance DecidableEq for Except

/-! ## Helper lemmas about the extractor's accumulation loops -/

theorem foldl_addLabel_inv (S : List Char) :
    ∀ (xs acc : List Char), acc.Nodup → (∀ a ∈ acc, a ∈ S) →
      (xs.foldl (addLabel S) acc).Nodup ∧ ∀ a ∈ xs.foldl (addLabel S) acc, a ∈ S := by
  intro xs
  induction xs with
  | nil => intro acc h1 h2; exact ⟨h1, h2⟩
  | cons x xs ih =>
    intro acc h1 h2
    rw [List.foldl_cons]
    by_cases hx : x ∈ S ∧ x ∉ acc
    · have hadd : addLabel S acc x = acc ++ [x] := if_pos hx
      rw [hadd]
      apply ih
      · refine List.nodup_append.mpr ⟨h1, List.nodup_singleton x, ?_⟩
        intro b hb hb'
        rw [List.mem_singleton] at hb'
        exact hx.2 (hb' ▸ hb)
      · intro a ha
        rcases List.mem_append.mp ha with ha | ha
        · exact h2 a ha
        · rw [List.mem_singleton] at ha
          exact ha ▸ hx.1
    · have hadd : addLabel S acc x = acc := if_neg hx
      rw [hadd]
      exact ih acc h1 h2

theorem fillMissing_eq_filter :
    ∀ (S acc : List Char), S.Nodup →
      fillMissing S acc = acc ++ S.filter (fun a => decide (a ∉ acc)) := by
  intro S
  induction S with
  | nil => intro acc _; simp [fillMissing]
  | cons l S ih =>
    intro acc hnd
    rw [List.nodup_cons] at hnd
    by_cases hl : l ∈ acc
    · have h1 : fillMissing (l :: S) acc = fillMissing S acc := by
        simp [fillMissing, hl]
      rw [h1, ih acc hnd.2]
      simp [List.filter_cons, hl]
    · have h1 : fillMissing (l :: S) acc = fillMissing S (acc ++ [l]) := by
        simp [fillMissing, hl]
      rw [h1, ih (acc ++ [l]) hnd.2]
      have h2 : S.filter (fun a => decide (a ∉ acc ++ [l])) = S.filter (fun a => decide (a ∉ acc)) := by
        apply List.filter_congr
        intro a ha
        have hal : a ≠ l := fun h => hnd.1 (h ▸ ha)
        simp [List.mem_append, hal]
      rw [h2]
      simp [List.filter_cons, hl, List.append_assoc]

theorem fillMissing_perm (S r : List Char) (hS : S.Nodup) (hr : r.Nodup)
    (hsub : ∀ a ∈ r, a ∈ S) : (fillMissing S r).Perm S := by
  rw [fillMissing_eq_filter S r hS]
  have hnd : (r ++ S.filter (fun a => decide (a ∉ r))).Nodup := by
    refine List.nodup_append.mpr ⟨hr, hS.filter _, ?_⟩
    intro b hb hb'
    have := (List.mem_filter.mp hb').2
    simp only [decide_eq_true_eq] at this
    exact this hb
  refine (List.perm_ext_iff_of_nodup hnd hS).mpr ?_
  intro a
  constructor
  · intro ha
    rcases List.mem_append.mp ha with ha | ha
    · exact hsub a ha
    · exact (List.mem_filter.mp ha).1
  · intro ha
    by_cases har : a ∈ r
    · exact List.mem_append.mpr (Or.inl har)
    · refine List.mem_append.mpr (Or.inr (List.mem_filter.mpr ⟨ha, ?_⟩))
      simp [har]

theorem take_fillMissing_perm (S r : List Char) (hS : S.Nodup) (hr : r.Nodup)
    (hsub : ∀ a ∈ r, a ∈ S) : ((fillMissing S r).take S.length).Perm S := by
  have hperm := fillMissing_perm S r hS hr hsub
  rw [show S.length = (fillMissing S r).length from hperm.length_eq.symm, List.take_length]
  exact hperm

/-! ## Helper lemmas about the rank aggregator -/

theorem positionScores_perm (label : Char) {a1 a2 : List (String × AssessResult)}
    (h : a1.Perm a2) : (positionScores a1 label).Perm (positionScores a2 label) := by
  induction h with
  | nil => exact List.Perm.refl _
  | cons x _ ih =>
    rw [positionScores, positionScores]
    exact ih.append_left _
  | swap x y l =>
    rw [positionScores, positionScores, positionScores, positionScores,
      ← List.append_assoc, ← List.append_assoc]
    exact List.perm_append_comm.append_right _
  | trans _ _ ih1 ih2 => exact ih1.trans ih2

/-- The relation "same label, role and average": what permuting the
assessments preserves entry-by-entry. -/
def sameView (e1 e2 : RankEntry) : Prop := entryView e1 = entryView e2

theorem sameView_avg {e1 e2 : RankEntry} (h : sameView e1 e2) :
    e1.avg_position = e2.avg_position := by
  have := congrArg (fun p => p.2.2) h
  exact this

theorem filterMap_entryFor_rel {a1 a2 : List (String × AssessResult)} (h : a1.Perm a2) :
    ∀ lrs : List (Char × String),
      List.Forall₂ sameView (lrs.filterMap (entryFor a1)) (lrs.filterMap (entryFor a2)) := by
  intro lrs
  induction lrs with
  | nil => simp
  | cons p ps ih =>
    have hps := positionScores_perm p.1 h
    by_cases hempty : positionScores a1 p.1 = []
    · have hempty2 : positionScores a2 p.1 = [] := by
        rw [hempty] at hps
        exact hps.symm.eq_nil
      rw [List.filterMap_cons, List.filterMap_cons]
      simp only [entryFor, hempty, hempty2, if_pos]
      exact ih
    · have hempty2 : positionScores a2 p.1 ≠ [] := by
        intro hnil
        rw [hnil] at hps
        exact hempty hps.eq_nil
      rw [List.filterMap_cons, List.filterMap_cons]
      simp only [entryFor, hempty, hempty2, if_neg, not_false_iff]
      refine List.Forall₂.cons ?_ ih
      show entryView _ = entryView _
      simp only [entryView]
      rw [hps.sum_eq, hps.length_eq]

theorem insortAvg_rel {x y : RankEntry} {l1 l2 : List RankEntry} (hxy : sameView x y)
    (h : List.Forall₂ sameView l1 l2) :
    List.Forall₂ sameView (insortAvg x l1) (insortAvg y l2) := by
  induction h with
  | nil => exact List.Forall₂.cons hxy List.Forall₂.nil
  | @cons a b t1 t2 hab htail ih =>
    rw [insortAvg, insortAvg]
    by_cases hc : x.avg_position ≤ a.avg_position
    · rw [if_pos hc, if_pos (by rw [← sameView_avg hxy, ← sameView_avg hab]; exact hc)]
      exact List.Forall₂.cons hxy (List.Forall₂.cons hab htail)
    · rw [if_neg hc, if_neg (by rw [← sameView_avg hxy, ← sameView_avg hab]; exact hc)]
      exact List.Forall₂.cons hab ih

theorem sortByAvg_rel {l1 l2 : List RankEntry} (h : List.Forall₂ sameView l1 l2) :
    List.Forall₂ sameView (sortByAvg l1) (sortByAvg l2) := by
  induction h with
  | nil => exact List.Forall₂.nil
  | cons hab _ ih =>
    rw [sortByAvg, sortByAvg]
    exact insortAvg_rel hab ih

theorem forall2_sameView_map {l1 l2 : List RankEntry} (h : List.Forall₂ sameView l1 l2) :
    l1.map entryView = l2.map entryView := by
  induction h with
  | nil => rfl
  | cons hab _ ih =>
    rw [List.map_cons, List.map_cons, hab, ih]

theorem insortAvg_perm (x : RankEntry) (l : List RankEntry) :
    (insortAvg x l).Perm (x :: l) := by
  induction l with
  | nil => exact List.Perm.refl _
  | cons y ys ih =>
    rw [insortAvg]
    by_cases hc : x.avg_position ≤ y.avg_position
    · rw [if_pos hc]
    · rw [if_neg hc]
      exact (ih.cons y).trans (List.Perm.swap x y ys)

theorem sortByAvg_perm (l : List RankEntry) : (sortByAvg l).Perm l := by
  induction l with
  | nil => exact List.Perm.refl _
  | cons x xs ih =>
    rw [sortByAvg]
    exact (insortAvg_perm x (sortByAvg xs)).trans (ih.cons x)

theorem insortAvg_pairwise {x : RankEntry} {l : List RankEntry}
    (h : l.Pairwise fun e1 e2 => e1.avg_position ≤ e2.avg_position) :
    (insortAvg x l).Pairwise fun e1 e2 => e1.avg_position ≤ e2.avg_position := by
  induction l with
  | nil => simp [insortAvg]
  | cons y ys ih =>
    rw [List.pairwise_cons] at h
    rw [insortAvg]
    by_cases hc : x.avg_position ≤ y.avg_position
    · rw [if_pos hc]
      refine List.pairwise_cons.mpr ⟨?_, List.pairwise_cons.mpr h⟩
      intro z hz
      rcases List.mem_cons.mp hz with rfl | hz
      · exact hc
      · exact le_trans hc (h.1 z hz)
    · rw [if_neg hc]
      refine List.pairwise_cons.mpr ⟨?_, ih h.2⟩
      intro z hz
      rcases List.mem_cons.mp ((insortAvg_perm x ys).mem_iff.mp hz) with rfl | hz
      · exact le_of_not_le hc
      · exact h.1 z hz

theorem sortByAvg_pairwise (l : List RankEntry) :
    (sortByAvg l).Pairwise fun e1 e2 => e1.avg_position ≤ e2.avg_position := by
  induction l with
  | nil => simp [sortByAvg]
  | cons x xs ih =>
    rw [sortByAvg]
    exact insortAvg_pairwise ih

theorem sublist_insortAvg (x : RankEntry) (l : List RankEntry) :
    l.Sublist (insortAvg x l) := by
  induction l with
  | nil => exact List.nil_sublist _
  | cons y ys ih =>
    rw [insortAvg]
    by_cases hc : x.avg_position ≤ y.avg_position
    · rw [if_pos hc]
      exact List.Sublist.cons x (List.Sublist.refl _)
    · rw [if_neg hc]
      exact List.Sublist.cons₂ y ih

theorem insortAvg_pair_sublist {x y : RankEntry} {s : List RankEntry} (hmem : y ∈ s)
    (hsort : s.Pairwise fun e1 e2 => e1.avg_position ≤ e2.avg_position)
    (hxy : x.avg_position ≤ y.avg_position) : [x, y].Sublist (insortAvg x s) := by
  induction s with
  | nil => simp at hmem
  | cons b bs ih =>
    rw [List.pairwise_cons] at hsort
    rw [insortAvg]
    by_cases hc : x.avg_position ≤ b.avg_position
    · rw [if_pos hc]
      exact List.Sublist.cons₂ x (List.singleton_sublist.mpr hmem)
    · rw [if_neg hc]
      have hby : y ∈ bs := by
        rcases List.mem_cons.mp hmem with rfl | hmem
        · exact absurd hxy hc
        · exact hmem
      exact List.Sublist.cons b (ih hby hsort.2)

theorem sortByAvg_stable {x y : RankEntry} :
    ∀ {l : List RankEntry}, [x, y].Sublist l → x.avg_position ≤ y.avg_position →
      [x, y].Sublist (sortByAvg l) := by
  intro l
  induction l with
  | nil => intro h _; exact absurd (h.length_le) (by simp)
  | cons a t ih =>
    intro h hxy
    rw [sortByAvg]
    cases h with
    | cons _ h' =>
      exact (ih h' hxy).trans (sublist_insortAvg a (sortByAvg t))
    | cons₂ _ h' =>
      have hmem : y ∈ sortByAvg t :=
        (sortByAvg_perm t).mem_iff.mpr (List.singleton_sublist.mp h')
      exact insortAvg_pair_sublist hmem (sortByAvg_pairwise t) hxy

/-! ## Claim C4 -/

/-- C4: for every input text (including empty or garbage text) and every
duplicate-free list of valid labels `S`, `extract_ranking_from_text text S`
returns a permutation of `S` — length `|S|`, each element of `S` exactly
once, no other element; labels in the text outside `S` are ignored.  The
function is total (never raises). -/
theorem c4_extract_permutation (text S : List Char) (hS : S.Nodup) :
    (extract_ranking_from_text text S).Perm S := by
  simp only [extract_ranking_from_text]
  have h1 := foldl_addLabel_inv S (scanPat1 (rankingSection text)) [] List.nodup_nil
    (by intro a ha; exact absurd ha (List.not_mem_nil a))
  by_cases hlen : ((scanPat1 (rankingSection text)).foldl (addLabel S) []).length < S.length
  · rw [if_pos hlen]
    have h2 := foldl_addLabel_inv S (scanPat2 (rankingSection text)) _ h1.1 h1.2
    exact take_fillMissing_perm S _ hS h2.1 h2.2
  · rw [if_neg hlen]
    exact take_fillMissing_perm S _ hS h1.1 h1.2

/-- C4 witness: a concrete garbage text and label set. -/
theorem c4_extract_permutation_witness :
    (['A', 'B'] : List Char).Nodup
    ∧ (extract_ranking_from_text "score: none".toList ['A', 'B']).Perm ['A', 'B'] :=
  ⟨by decide, c4_extract_permutation _ _ (by decide)⟩

/-! ## Claim C5 -/

/-- C5 (amended): `create_anonymous_labels` does not fail when more than 26
contributions are supplied — no `CapacityExceeded` error exists; it silently
keeps only the first 26 contributions, returning `min 26 n` labeled
entries. -/
theorem c5_labels_truncate (analyses : List AnalysisIn) :
    (create_anonymous_labels analyses).length = min 26 analyses.length := by
  unfold create_anonymous_labels
  rw [List.length_map, List.length_zip, show labelAlphabet.length = 26 by decide]

/-- C5 counterexample: 27 contributions do not produce any error — the call
returns a normal 26-entry labeling, dropping the 27th contribution. -/
theorem c5_capacity_counterexample :
    ([] ++ List.replicate 27 (⟨"r", "c", none⟩ : AnalysisIn)).length = 27
    ∧ (create_anonymous_labels (List.replicate 27 ⟨"r", "c", none⟩)).length = 26 := by
  decide

/-! ## Claim C6 -/

/-- C6: rank aggregation is invariant to the order of the assessments: for
permuted assessment collections, every label gets the same average position
and the entries come out in the same order (same label/role/average
sequence; only the raw `positions` lists may list the same multiset in a
different order). -/
theorem c6_aggregate_perm_invariant (a1 a2 : List (String × AssessResult))
    (lr : List (Char × String)) (h : a1.Perm a2) :
    (_calculate_aggregate_rankings a1 lr).map entryView
      = (_calculate_aggregate_rankings a2 lr).map entryView :=
  forall2_sameView_map (sortByAvg_rel (filterMap_entryFor_rel h lr))

def c6AssessX : String × AssessResult := ("p1", ⟨"m1", "e1", ['A', 'B']⟩)

def c6AssessY : String × AssessResult := ("p2", ⟨"m2", "e2", ['B', 'A']⟩)

/-- C6 witness: two concrete assessment collections that are permutations of
each other. -/
theorem c6_aggregate_perm_invariant_witness :
    ([c6AssessX, c6AssessY]).Perm [c6AssessY, c6AssessX]
    ∧ (_calculate_aggregate_rankings [c6AssessX, c6AssessY] [('A', "r1"), ('B', "r2")]).map entryView
      = (_calculate_aggregate_rankings [c6AssessY, c6AssessX] [('A', "r1"), ('B', "r2")]).map entryView :=
  ⟨List.Perm.swap c6AssessY c6AssessX [],
   c6_aggregate_perm_invariant _ _ _ (List.Perm.swap c6AssessY c6AssessX [])⟩

/-! ## Claim C8 -/

/-- C8: the aggregate ranking list is sorted ascending by average position,
and it contains an entry for exactly those labels of the label-to-role map
that received at least one observed position; labels ranked by no assessment
are omitted. -/
theorem c8_sorted_and_support (a : List (String × AssessResult)) (lr : List (Char × String)) :
    ((_calculate_aggregate_rankings a lr).Pairwise
        fun e1 e2 => e1.avg_position ≤ e2.avg_position)
    ∧ ∀ label : Char,
        (∃ e ∈ _calculate_aggregate_rankings a lr, e.label = label) ↔
          ((∃ role, (label, role) ∈ lr) ∧ positionScores a label ≠ []) := by
  constructor
  · exact sortByAvg_pairwise _
  · intro label
    constructor
    · rintro ⟨e, he, rfl⟩
      have he' : e ∈ lr.filterMap (entryFor a) := (sortByAvg_perm _).mem_iff.mp he
      obtain ⟨p, hp, hfp⟩ := List.mem_filterMap.mp he'
      simp only [entryFor] at hfp
      by_cases hempty : positionScores a p.1 = []
      · rw [if_pos hempty] at hfp
        exact absurd hfp (by simp)
      · rw [if_neg hempty] at hfp
        have he2 := Option.some.inj hfp
        have hlab : e.label = p.1 := by rw [← he2]
        rw [hlab]
        exact ⟨⟨p.2, hp⟩, hempty⟩
    · rintro ⟨⟨role, hmem⟩, hne⟩
      refine ⟨⟨label, role,
        ((positionScores a label).sum : ℚ) / ((positionScores a label).length : ℚ),
        positionScores a label⟩, ?_, rfl⟩
      apply (sortByAvg_perm _).mem_iff.mpr
      apply List.mem_filterMap.mpr
      refine ⟨(label, role), hmem, ?_⟩
      simp only [entryFor]
      rw [if_neg hne]

/-! ## Claim C10 -/

/-- C10: ties in the aggregate ranking are broken deterministically by the
insertion order of the label-to-role map (alphabetical for labels produced
by `create_anonymous_labels`): whenever a label `l1` listed earlier than
`l2` has the same average position, `l1`'s entry appears before `l2`'s entry
in the output; the computation is a pure function, so re-runs on the same
inputs agree. -/
theorem c10_tie_break_stable (a : List (String × AssessResult))
    (L1 L2 L3 : List (Char × String)) (l1 l2 : Char) (r1 r2 : String)
    (h1 : positionScores a l1 ≠ []) (h2 : positionScores a l2 ≠ [])
    (heq : avgPos a l1 = avgPos a l2) :
    [aggregateEntry a l1 r1, aggregateEntry a l2 r2].Sublist
      (_calculate_aggregate_rankings a (L1 ++ (l1, r1) :: L2 ++ (l2, r2) :: L3)) := by
  have hf1 : entryFor a (l1, r1) = some (aggregateEntry a l1 r1) := by
    simp only [entryFor, aggregateEntry, avgPos]
    rw [if_neg h1]
  have hf2 : entryFor a (l2, r2) = some (aggregateEntry a l2 r2) := by
    simp only [entryFor, aggregateEntry, avgPos]
    rw [if_neg h2]
  have hfm : (L1 ++ (l1, r1) :: L2 ++ (l2, r2) :: L3).filterMap (entryFor a)
      = L1.filterMap (entryFor a) ++ aggregateEntry a l1 r1 ::
          (L2.filterMap (entryFor a) ++ aggregateEntry a l2 r2 :: L3.filterMap (entryFor a)) := by
    simp only [List.filterMap_append, List.filterMap_cons, hf1, hf2, List.cons_append,
      List.append_assoc]
  have hsub : [aggregateEntry a l1 r1, aggregateEntry a l2 r2].Sublist
      ((L1 ++ (l1, r1) :: L2 ++ (l2, r2) :: L3).filterMap (entryFor a)) := by
    rw [hfm]
    refine List.Sublist.trans ?_ (List.sublist_append_right _ _)
    refine List.Sublist.cons₂ _ ?_
    exact List.singleton_sublist.mpr (List.mem_append_right _ (List.mem_cons_self _ _))
  simp only [_calculate_aggregate_rankings]
  have havg : (aggregateEntry a l1 r1).avg_position ≤ (aggregateEntry a l2 r2).avg_position :=
    le_of_eq heq
  exact sortByAvg_stable hsub havg

def c10Assess : List (String × AssessResult) :=
  [("p1", ⟨"m1", "e1", ['A', 'B']⟩), ("p2", ⟨"m2", "e2", ['B', 'A']⟩)]

/-- C10 witness: two assessors rank `[A, B]` and `[B, A]`, so both labels
average 3/2; label `A`, listed first in the label-to-role map, keeps the
first output slot. -/
theorem c10_tie_break_stable_witness :
    positionScores c10Assess 'A' ≠ [] ∧ positionScores c10Assess 'B' ≠ []
    ∧ avgPos c10Assess 'A' = avgPos c10Assess 'B'
    ∧ [aggregateEntry c10Assess 'A' "r1", aggregateEntry c10Assess 'B' "r2"].Sublist
        (_calculate_aggregate_rankings c10Assess [('A', "r1"), ('B', "r2")]) :=
  ⟨by decide, by decide,
   by simp [avgPos, c10Assess, positionScores, rankPositions, rankPositionsFrom],
   c10_tie_break_stable c10Assess [] [] [] 'A' 'B' "r1" "r2" (by decide) (by decide)
     (by simp [avgPos, c10Assess, positionScores, rankPositions, rankPositionsFrom])⟩

/-! ## Claim C7 -/

theorem getElem?_zip_pair :
    ∀ (l1 : List Char) (l2 : List AnalysisIn) (i : Nat) (c : Char) (a : AnalysisIn),
      l1[i]? = some c → l2[i]? = some a → (l1.zip l2)[i]? = some (c, a) := by
  intro l1
  induction l1 with
  | nil => intro l2 i c a h1 _; simp at h1
  | cons x xs ih =>
    intro l2 i c a h1 h2
    cases l2 with
    | nil => simp at h2
    | cons y ys =>
      cases i with
      | zero =>
        simp only [List.getElem?_cons_zero, Option.some.injEq] at h1 h2
        simp [List.zip_cons_cons, h1, h2]
      | succ n =>
        simp only [List.getElem?_cons_succ] at h1 h2
        simpa [List.zip_cons_cons] using ih ys n c a h1 h2

/-- C7: for at most 26 contributions, the i-th contribution (input order)
receives the i-th uppercase letter of the alphabet (`Char.ofNat (65 + i)`:
the first contribution gets `A`, the second `B`, …), paired with its own
role, content and model; labelling is a pure function of the input list, so
re-running on the same input yields the identical assignment. -/
theorem c7_labels_in_order (as : List AnalysisIn) (h26 : as.length ≤ 26) (i : Nat)
    (hi : i < as.length) :
    ∃ a, as[i]? = some a ∧
      (create_anonymous_labels as)[i]? =
        some (Char.ofNat (65 + i), ⟨a.role, a.content, a.model.getD "unknown"⟩) := by
  have hi26 : i < 26 := lt_of_lt_of_le hi h26
  have halph : labelAlphabet[i]? = some (Char.ofNat (65 + i)) := by
    have hall : ∀ j, j < 26 → labelAlphabet[j]? = some (Char.ofNat (65 + j)) := by decide
    exact hall i hi26
  have ha : as[i]? = some as[i] := List.getElem?_eq_getElem hi
  refine ⟨as[i], ha, ?_⟩
  unfold create_anonymous_labels
  rw [List.getElem?_map, getElem?_zip_pair labelAlphabet as i _ _ halph ha]
  rfl

def c7Analyses : List AnalysisIn := [⟨"p1", "c1", some "m1"⟩, ⟨"p2", "c2", none⟩]

/-- C7 witness: with two concrete contributions, the second (index 1) is
labelled with the second letter. -/
theorem c7_labels_in_order_witness :
    c7Analyses.length ≤ 26 ∧ 1 < c7Analyses.length
    ∧ ∃ a, c7Analyses[1]? = some a ∧
        (create_anonymous_labels c7Analyses)[1]? =
          some (Char.ofNat (65 + 1), ⟨a.role, a.content, a.model.getD "unknown"⟩) :=
  ⟨by decide, by decide, c7_labels_in_order c7Analyses (by decide) 1 (by decide)⟩

/-! ## Claim C1 -/

/-- C1 (amended): in batch mode, if any participant's stage-1 generation
request raises, `stage1_collect_analyses` raises as well — `asyncio.gather`
without `return_exceptions=True` aborts the stage, and the role-to-analysis
map omitting the failed participant is *not* returned. -/
theorem c1_stage1_failure_aborts (team : List Counsel)
    (gen1 : String → String → Except Exc String)
    (onA : Option (String → AnalysisResult → Except Exc Unit)) (c : Counsel) (hc : c ∈ team)
    (e : Exc) (he : gen1 c.role c.model = Except.error e) :
    ∃ e', stage1_collect_analyses team gen1 onA = Except.error e' := by
  induction team with
  | nil => exact absurd hc (List.not_mem_nil c)
  | cons d rest ih =>
    rcases List.mem_cons.mp hc with rfl | hmem
    · exact ⟨e, by simp [stage1_collect_analyses, he]⟩
    · obtain ⟨e', he'⟩ := ih hmem
      cases hd : gen1 d.role d.model with
      | error e2 => exact ⟨e2, by simp [stage1_collect_analyses, hd]⟩
      | ok content =>
        cases hcb : invokeCb onA d.role (⟨d.model, content, d.display_name⟩ : AnalysisResult) with
        | error e3 => exact ⟨e3, by simp [stage1_collect_analyses, hd, hcb]⟩
        | ok u => exact ⟨e', by simp [stage1_collect_analyses, hd, hcb, he']⟩

def c1Team : List Counsel := [⟨"r1", "m1", "D1"⟩, ⟨"r2", "m2", "D2"⟩, ⟨"r3", "m3", "D3"⟩]

def c1GenFail : String → String → Except Exc String := fun role _ =>
  if role = "r2" then Except.error (Exc.gateway "boom") else Except.ok ("ans-" ++ role)

def c1GenOk : String → String → Except Exc String := fun role _ => Except.ok ("ans-" ++ role)

/-- C1 counterexample: with three members and exactly the second member's
request raising, batch stage 1 does not return the two-member map with the
failed participant absent — the exception propagates and no map at all is
returned (second conjunct: what the same team returns when nothing fails). -/
theorem c1_single_failure_counterexample :
    stage1_collect_analyses c1Team c1GenFail none = Except.error (Exc.gateway "boom")
    ∧ stage1_collect_analyses c1Team c1GenOk none =
        Except.ok [("r1", ⟨"m1", "ans-r1", "D1"⟩), ("r2", ⟨"m2", "ans-r2", "D2"⟩),
          ("r3", ⟨"m3", "ans-r3", "D3"⟩)] := by
  decide

/-- C1 witness: the amended theorem applied to a concrete failing team. -/
theorem c1_stage1_failure_aborts_witness :
    ((⟨"r2", "m2", "D2"⟩ : Counsel) ∈ c1Team)
    ∧ c1GenFail "r2" "m2" = Except.error (Exc.gateway "boom")
    ∧ ∃ e', stage1_collect_analyses c1Team c1GenFail none = Except.error e' :=
  ⟨by decide, by decide,
   c1_stage1_failure_aborts c1Team c1GenFail none ⟨"r2", "m2", "D2"⟩ (by decide)
     (Exc.gateway "boom") (by decide)⟩

/-! ## Claim C3 -/

/-- C3 (amended): if every participant's stage-1 request fails, batch
`run_deliberation` does not return an explicit `AllParticipantsFailed`
terminal result (no such error exists in the code) — it propagates the first
participant's underlying gateway exception unchanged.  It does return an
error (never an empty success), and stage 2 and stage 3 are never reached:
the outcome is independent of the stage-2 and stage-3 generation
behaviour. -/
theorem c3_all_fail_propagates (c : Counsel) (rest : List Counsel) (lead : String)
    (gen1 : String → String → Except Exc String)
    (gen2 gen2' gen3 gen3' : String → Except Exc String)
    (hall : ∀ m ∈ c :: rest, ∃ e, gen1 m.role m.model = Except.error e) :
    (∃ e, run_deliberation (c :: rest) lead gen1 gen2 gen3 none = Except.error e
        ∧ gen1 c.role c.model = Except.error e)
    ∧ run_deliberation (c :: rest) lead gen1 gen2 gen3 none
        = run_deliberation (c :: rest) lead gen1 gen2' gen3' none := by
  obtain ⟨e, he⟩ := hall c (List.mem_cons_self c rest)
  have hrun : ∀ g2 g3 : String → Except Exc String,
      run_deliberation (c :: rest) lead gen1 g2 g3 none = Except.error e := by
    intro g2 g3
    simp [run_deliberation, emitEvent, stage1_collect_analyses, he]
  exact ⟨⟨e, hrun gen2 gen3, he⟩, by rw [hrun gen2 gen3, hrun gen2' gen3']⟩

def c3Team : List Counsel := [⟨"r1", "m1", "D1"⟩]

def c3GenFail : String → String → Except Exc String := fun _ _ =>
  Except.error (Exc.gateway "503")

def c3Gen2 : String → Except Exc String := fun _ => Except.ok "eval"

def c3Gen2Alt : String → Except Exc String := fun _ => Except.ok "other eval"

def c3Gen3 : String → Except Exc String := fun _ => Except.ok "memo"

def c3Gen3Alt : String → Except Exc String := fun _ => Except.ok "other memo"

/-- C3 counterexample: when every stage-1 request fails, the returned error
is the raw propagated gateway exception, not a distinguished
`AllParticipantsFailed` terminal result — no value of that kind exists in
the code. -/
theorem c3_all_fail_counterexample :
    run_deliberation c3Team "lead-model" c3GenFail c3Gen2 c3Gen3 none
      = Except.error (Exc.gateway "503") := by
  decide

/-- C3 witness: the amended theorem applied to a concrete all-failing team. -/
theorem c3_all_fail_propagates_witness :
    (∀ m ∈ c3Team, ∃ e, c3GenFail m.role m.model = Except.error e)
    ∧ ((∃ e, run_deliberation c3Team "lead-model" c3GenFail c3Gen2 c3Gen3 none = Except.error e
          ∧ c3GenFail "r1" "m1" = Except.error e)
       ∧ run_deliberation c3Team "lead-model" c3GenFail c3Gen2 c3Gen3 none
          = run_deliberation c3Team "lead-model" c3GenFail c3Gen2Alt c3Gen3Alt none) :=
  ⟨fun _ _ => ⟨Exc.gateway "503", rfl⟩,
   c3_all_fail_propagates ⟨"r1", "m1", "D1"⟩ [] "lead-model" c3GenFail c3Gen2 c3Gen2Alt
     c3Gen3 c3Gen3Alt (fun _ _ => ⟨Exc.gateway "503", rfl⟩)⟩

/-! ## Claim C9 -/

/-- C9 (amended): in batch mode a progress callback that raises is *not*
isolated: `run_deliberation` does not catch callback exceptions, so a
callback raising on the very first event (`stage1_start`) makes the whole
deliberation return that exception instead of the three-stage result. -/
theorem c9_callback_error_propagates (team : List Counsel) (lead : String)
    (gen1 : String → String → Except Exc String) (gen2 gen3 : String → Except Exc String)
    (cb : Event → Except Exc Unit) (e : Exc) (h : cb Event.stage1_start = Except.error e) :
    run_deliberation team lead gen1 gen2 gen3 (some cb) = Except.error e := by
  simp [run_deliberation, emitEvent, h]

def c9Team : List Counsel := [⟨"r1", "m1", "D1"⟩]

def c9Gen1 : String → String → Except Exc String := fun _ _ => Except.ok "analysis"

def c9Gen2 : String → Except Exc String := fun _ => Except.ok "FINAL RANKING:\n1. A"

def c9Gen3 : String → Except Exc String := fun _ => Except.ok "memo"

def c9Cb : Event → Except Exc Unit := fun _ => Except.error (Exc.callback "cb-boom")

/-- C9 counterexample: on a team whose deliberation succeeds without a
callback, installing a callback that raises changes the outcome to that
callback's exception — the deliberation result is not preserved and the
exception is propagated, not swallowed. -/
theorem c9_callback_counterexample :
    run_deliberation c9Team "lead" c9Gen1 c9Gen2 c9Gen3 (some c9Cb)
      = Except.error (Exc.callback "cb-boom")
    ∧ exceptIsOk (run_deliberation c9Team "lead" c9Gen1 c9Gen2 c9Gen3 none) = true := by
  decide

/-- C9 witness: the amended theorem applied to a concrete raising callback. -/
theorem c9_callback_error_propagates_witness :
    c9Cb Event.stage1_start = Except.error (Exc.callback "cb-boom")
    ∧ run_deliberation c9Team "lead" c9Gen1 c9Gen2 c9Gen3 (some c9Cb)
        = Except.error (Exc.callback "cb-boom") :=
  ⟨rfl, c9_callback_error_propagates c9Team "lead" c9Gen1 c9Gen2 c9Gen3 c9Cb
    (Exc.callback "cb-boom") rfl⟩

/-! ## Claim C2 -/

def c2Text : List Char := "FINAL RANKING:\n1. B\n2. A\n3. C".toList

def c2Labels : List Char := ['A', 'B', 'C']

/-- The three assessments of the scenario with their extracted rankings
written out literally. -/
def c2Ranked : List (String × AssessResult) :=
  [("r1", ⟨"m1", "FINAL RANKING:\n1. B\n2. A\n3. C", ['C', 'B', 'A']⟩),
   ("r2", ⟨"m2", "FINAL RANKING:\n1. B\n2. A\n3. C", ['C', 'B', 'A']⟩),
   ("r3", ⟨"m3", "FINAL RANKING:\n1. B\n2. A\n3. C", ['C', 'B', 'A']⟩)]

def c2Assessments : List (String × AssessResult) :=
  [("r1", ⟨"m1", "FINAL RANKING:\n1. B\n2. A\n3. C", extract_ranking_from_text c2Text c2Labels⟩),
   ("r2", ⟨"m2", "FINAL RANKING:\n1. B\n2. A\n3. C", extract_ranking_from_text c2Text c2Labels⟩),
   ("r3", ⟨"m3", "FINAL RANKING:\n1. B\n2. A\n3. C", extract_ranking_from_text c2Text c2Labels⟩)]

/-- C2: evaluation of the code at the claim's scenario.  On the stage-2
response text ending `"FINAL RANKING:"` followed by the bare lines
`1. B`, `2. A`, `3. C` with valid labels `[A, B, C]`, the extractor does
*not* return `[B, A, C]`: the first regex pattern requires a dash,
an opening parenthesis or end-of-text right after the label, so only the
final line's `C` matches the first pass, and the loose second pass then
appends `B` and `A` in textual order — the result is `[C, B, A]`.
Aggregating the three identical assessments therefore orders the entries
`[C, B, A]` with average positions 1, 2, 3 for `C`, `B`, `A`
respectively, contradicting the claimed `[B, A, C]`. -/
theorem c2_ranking_scenario_eval :
    extract_ranking_from_text c2Text c2Labels = ['C', 'B', 'A']
    ∧ _calculate_aggregate_rankings c2Assessments [('A', "r1"), ('B', "r2"), ('C', "r3")]
      = [⟨'C', "r3", 1, [1, 1, 1]⟩, ⟨'B', "r2", 2, [2, 2, 2]⟩, ⟨'A', "r1", 3, [3, 3, 3]⟩] := by
  have hex : extract_ranking_from_text c2Text c2Labels = ['C', 'B', 'A'] := by decide
  refine ⟨hex, ?_⟩
  have hassess : c2Assessments = c2Ranked := by
    simp only [c2Assessments, c2Ranked, hex]
  rw [hassess]
  have hpsA : positionScores c2Ranked 'A' = [3, 3, 3] := by decide
  have hpsB : positionScores c2Ranked 'B' = [2, 2, 2] := by decide
  have hpsC : positionScores c2Ranked 'C' = [1, 1, 1] := by decide
  have heA : entryFor c2Ranked ('A', "r1") = some ⟨'A', "r1", 3, [3, 3, 3]⟩ := by
    simp only [entryFor, hpsA]
    rw [if_neg (by simp : ¬([3, 3, 3] : List Nat) = [])]
    norm_num [RankEntry.mk.injEq]
  have heB : entryFor c2Ranked ('B', "r2") = some ⟨'B', "r2", 2, [2, 2, 2]⟩ := by
    simp only [entryFor, hpsB]
    rw [if_neg (by simp : ¬([2, 2, 2] : List Nat) = [])]
    norm_num [RankEntry.mk.injEq]
  have heC : entryFor c2Ranked ('C', "r3") = some ⟨'C', "r3", 1, [1, 1, 1]⟩ := by
    simp only [entryFor, hpsC]
    rw [if_neg (by simp : ¬([1, 1, 1] : List Nat) = [])]
    norm_num [RankEntry.mk.injEq]
  have hfm : ([('A', "r1"), ('B', "r2"), ('C', "r3")] : List (Char × String)).filterMap
      (entryFor c2Ranked)
      = [⟨'A', "r1", 3, [3, 3, 3]⟩, ⟨'B', "r2", 2, [2, 2, 2]⟩, ⟨'C', "r3", 1, [1, 1, 1]⟩] := by
    simp only [List.filterMap_cons, List.filterMap_nil, heA, heB, heC]
  simp only [_calculate_aggregate_rankings]
  rw [hfm]
  norm_num [sortByAvg, insortAvg]
